import Mathlib

/-!
Verification of the version-conflict and semantic-search core of the
`lamsal-kit` CLI, shallowly embedded from the TypeScript sources
(`src/cli/parse-version.ts`, the conflict detector `getConflictingDeps`,
and the embeddings search `initEmbeddings` / `searchVectors`).
-/

/-- The update-policy modifier of a version specifier
(`z.enum(["patch", "minor", "major"])` in `parse-version.ts`). -/
inductive Modifier where
  | patch
  | minor
  | major
deriving DecidableEq, Repr

/-- The `Version` type of `parse-version.ts`: either the `"latest"` sentinel
or a structured record with a modifier and numeric major/minor/patch. -/
inductive Version where
  | latest
  | v (modifier : Modifier) (major minor patch : Nat)
deriving DecidableEq, Repr

/-- JavaScript regex character class `\d`, i.e. the ASCII digits `[0-9]`. -/
def isDig (c : Char) : Bool := '0' ≤ c && c ≤ '9'

/-- Numeric value of a captured digit character: `z.coerce.number` applied to
the one-character capture of a `(\d)` group. -/
def digToNat (c : Char) : Nat := c.toNat - 48

/-- Attempt to match `(\d)+\.(\d)+\.(\d)+.*` at the head of `l` (which the
caller ensures starts with a digit).  Each `(\d)+` consumes a maximal digit
run (any shorter consumption would leave a digit where `\.` is required), and
its single-character capture group retains only the digit of the last
iteration, i.e. the last character of the run.  Returns the three captures. -/
def attemptAt (l : List Char) : Option (Char × Char × Char) :=
  match (l.takeWhile isDig).getLast? with
  | none => none
  | some d1 =>
    match l.dropWhile isDig with
    | '.' :: rest2 =>
      match (rest2.takeWhile isDig).getLast? with
      | none => none
      | some d2 =>
        match rest2.dropWhile isDig with
        | '.' :: rest4 =>
          match (rest4.takeWhile isDig).getLast? with
          | none => none
          | some d3 => some (d1, d2, d3)
        | _ => none
    | _ => none

/-- Leftmost match of the JavaScript regex `/(\D*)(\d)+\.(\d)+\.(\d)+.*/` on a
string, as performed by `String.prototype.match`: attempt the pattern at each
successive start position.  At a given start, greedy `\D*` must extend exactly
to the next digit (the following `(\d)+` demands one), so `pre` accumulates
the non-digit characters since the last digit; the capture of group 1 on a
successful match is therefore the maximal non-digit run preceding the first
digit of the match.  Returns the four captures (group 1 reversed back into
order, groups 2-4 as their last-iteration characters). -/
def tryFrom (pre : List Char) : List Char → Option (List Char × Char × Char × Char)
  | [] => none
  | c :: rest =>
    if isDig c then
      match attemptAt (c :: rest) with
      | some (d1, d2, d3) => some (pre.reverse, d1, d2, d3)
      | none => tryFrom [] rest
    else
      tryFrom (c :: pre) rest

/-- The property names of `Object.prototype` (ECMA-262, with the
`__proto__` accessor and the Annex B legacy accessors present in Node):
property access on the object literal `{"~": "patch", "^": "minor"}` with one
of these keys walks the prototype chain and returns an inherited truthy
value instead of `undefined`. -/
def protoKeys : List (List Char) :=
  ["constructor".data, "hasOwnProperty".data, "isPrototypeOf".data,
    "propertyIsOwnEnumerable".data, "toLocaleString".data, "toString".data,
    "valueOf".data, "__defineGetter__".data, "__defineSetter__".data,
    "__lookupGetter__".data, "__lookupSetter__".data, "__proto__".data]

/-- The modifier computed by `parseVersion` from the captured group-1
characters, combined with the subsequent schema validation:
`{"~": "patch", "^": "minor"}[prefix] ?? "major"` yields `"patch"` or
`"minor"` for the two own keys; for an `Object.prototype` property name the
lookup returns the inherited truthy function/object, `?? "major"` does not
fire, and `VersionSchema.safeParse` rejects the record because the modifier
is not one of the enum strings (so `.data` is `undefined` — modelled as
`none`); for every other prefix the lookup is `undefined`, `?? "major"`
applies and validation succeeds. -/
def modifierOfPrefixChars (p : List Char) : Option Modifier :=
  if p = "~".data then some Modifier.patch
  else if p = "^".data then some Modifier.minor
  else if p ∈ protoKeys then none
  else some Modifier.major

/-- `parseVersion` from `src/cli/parse-version.ts`: `"latest"` maps to the
sentinel; otherwise the regex `/(\D*)(\d)+\.(\d)+\.(\d)+.*/` is matched (no
match means the destructured `prefix` is `undefined` and the function returns
nothing), the prefix is mapped to a modifier, and the three single-digit
captures are numerically coerced.  `VersionSchema.safeParse(...).data`
yields the record when the modifier is one of the enum strings and
`undefined` when the prototype-chain lookup produced a non-enum value (see
`modifierOfPrefixChars`); the digit captures always coerce. -/
def parseVersion (version : String) : Option Version :=
  if version = "latest" then some Version.latest
  else
    match tryFrom [] version.data with
    | none => none
    | some (p, d1, d2, d3) =>
      (modifierOfPrefixChars p).map
        (fun m => Version.v m (digToNat d1) (digToNat d2) (digToNat d3))

/-- `compareVersions` from `src/cli/parse-version.ts`.  Inside the
either-is-latest branch the code returns `-1` when `next` is not `"latest"`
(so `current` is), `1` when `current` is not `"latest"` (so `next` is), and
`0` when both are. -/
def compareVersions (current next : Version) : Int :=
  match current, next with
  | Version.latest, Version.latest => 0
  | Version.latest, Version.v _ _ _ _ => -1
  | Version.v _ _ _ _, Version.latest => 1
  | Version.v m1 a1 b1 c1, Version.v _ a2 b2 c2 =>
    let majorDiff : Int := (a2 : Int) - (a1 : Int)
    if majorDiff ≠ 0 ∨ m1 = Modifier.major then majorDiff
    else
      let minorDiff : Int := (b2 : Int) - (b1 : Int)
      if minorDiff ≠ 0 ∨ m1 = Modifier.minor then minorDiff
      else (c2 : Int) - (c1 : Int)

/-- Modelled from the spec: the canonical string form of a structured
specifier — the modifier's prefix character (`~` for `patch`, `^` for
`minor`, empty for `major`) followed by `major.minor.patch`.  The repository
has no `stringify`; the spec says to "construct the inverse informally". -/
def prefixOfModifier : Modifier → String
  | Modifier.patch => "~"
  | Modifier.minor => "^"
  | Modifier.major => ""

/-- Modelled from the spec: canonical string form of a `VersionSpec`. -/
def stringifyVersion : Version → String
  | Version.latest => "latest"
  | Version.v m a b c =>
    prefixOfModifier m ++ toString a ++ "." ++ toString b ++ "." ++ toString c

/-- `RegistryEntry` from `registry/RegistryEntry.ts`: name, entry path,
optional dependency token lists and optional copy target. -/
structure RegistryEntry where
  name : String
  entry : String
  dependencies : Option (List String) := none
  devDependencies : Option (List String) := none
  copyTo : Option String := none
deriving DecidableEq, Repr

/-- The manifest argument of `getConflictingDeps`: a `package.json` object
with optional `dependencies` / `devDependencies` maps.  JavaScript object
maps are modelled as association lists with unique keys; lookup takes the
first matching key. -/
structure PackageJson where
  dependencies : Option (List (String × String)) := none
  devDependencies : Option (List (String × String)) := none
deriving DecidableEq, Repr

/-- The `key` argument of `getConflictingDeps` (`keyof typeof packageJson`). -/
inductive DepField where
  | dependencies
  | devDependencies
deriving DecidableEq, Repr

/-- Field selection `config[key]` on a registry entry. -/
def RegistryEntry.field (config : RegistryEntry) : DepField → Option (List String)
  | DepField.dependencies => config.dependencies
  | DepField.devDependencies => config.devDependencies

/-- One conflict record `{name, current, next}` produced by the detector. -/
structure ConflictEntry where
  name : String
  current : String
  next : String
deriving DecidableEq, Repr

/-- JavaScript `String.prototype.split` with a one-character separator:
`""` splits to `[""]`, separators at the ends produce empty segments. -/
def splitChar (sep : Char) : List Char → List (List Char)
  | [] => [[]]
  | c :: rest =>
    if c = sep then [] :: splitChar sep rest
    else
      match splitChar sep rest with
      | [] => [[c]]
      | r :: rs => (c :: r) :: rs

/-- The destructuring `const [name, version = "latest"] = curr.split("@")`:
the first segment is the package name, the second (when present, even if
empty) is the version text, defaulting to `"latest"` when absent. -/
def splitDep (curr : String) : String × String :=
  match splitChar '@' curr.data with
  | [] => ("", "latest")
  | n :: rest =>
    (String.mk n, match rest with
      | [] => "latest"
      | ver :: _ => String.mk ver)

/-- `s.split(".")[0]`: the segment of `s` before its first `'.'` (the whole
string when there is no dot). -/
def firstDotSegment (s : String) : String :=
  String.mk (s.data.takeWhile (fun c => c ≠ '.'))

/-- Lookup `{...packageJson.dependencies, ...packageJson.devDependencies}[name]`:
object spread merges with `devDependencies` keys overriding `dependencies`
keys, and spreading an absent map contributes nothing. -/
def unionLookup (packageJson : PackageJson) (name : String) : Option String :=
  match packageJson.devDependencies.bind (fun m => m.lookup name) with
  | some v => some v
  | none => packageJson.dependencies.bind (fun m => m.lookup name)

/-- The body of the `reduce` callback in `getConflictingDeps`: split the
token, look the name up in the merged manifest maps (the guard
`if (!currentVersion)` skips both an absent entry and a present-but-empty
version string, both falsy), always flag `"latest"`, otherwise flag exactly
when the leading dot-segments of the two version strings differ as raw
strings. -/
def conflictStep (packageJson : PackageJson) (acc : List ConflictEntry)
    (curr : String) : List ConflictEntry :=
  let nv := splitDep curr
  match unionLookup packageJson nv.1 with
  | none => acc
  | some currentVersion =>
    if currentVersion = "" then acc
    else if nv.2 = "latest" then
      acc ++ [{ name := nv.1, current := currentVersion, next := nv.2 }]
    else if firstDotSegment currentVersion ≠ firstDotSegment nv.2 then
      acc ++ [{ name := nv.1, current := currentVersion, next := nv.2 }]
    else acc

/-- `getConflictingDeps` from the CLI sources: `config[key]?.reduce(..., [])`.
When the selected field is absent the optional chain yields `undefined`
(modelled as `none`), not an empty list. -/
def getConflictingDeps (config : RegistryEntry) (packageJson : PackageJson)
    (key : DepField) : Option (List ConflictEntry) :=
  (config.field key).map (fun deps => deps.foldl (conflictStep packageJson) [])

/-- One item of the embeddings index `{name, vector}`
(`RegistryEntryEmbedding` elements, as produced by the registry build step).
JavaScript numbers are modelled as rationals. -/
structure EmbeddingItem where
  name : String
  vector : List ℚ
deriving DecidableEq, Repr

/-- A scored item `{...item, similarity}` as built inside `searchVectors`. -/
structure ScoredEmbedding where
  name : String
  vector : List ℚ
  similarity : ℚ
deriving DecidableEq, Repr

/-- The similarity loop of `searchVectors`:
`for (i = 0; i < Math.min(queryVector.length, item.vector.length); i++)
 similarity += queryVector[i] * item.vector[i]`. -/
def dotMin : List ℚ → List ℚ → ℚ
  | x :: xs, y :: ys => x * y + dotMin xs ys
  | _, _ => 0

/-- Insertion step of the stable descending sort performed by
`results.sort((a, b) => b.similarity - a.similarity)`: the element being
inserted precedes an element already in place exactly when the comparator is
non-positive on the pair, i.e. when its similarity is at least as large
(ECMA-262 `Array.prototype.sort` is stable). -/
def insertBySim (x : ScoredEmbedding) : List ScoredEmbedding → List ScoredEmbedding
  | [] => [x]
  | y :: ys => if y.similarity ≤ x.similarity then x :: y :: ys else y :: insertBySim x ys

/-- Stable sort by descending similarity, modelling the JavaScript `sort`
call extensionally (a stable comparison sort's output is determined by the
comparator). -/
def sortBySim : List ScoredEmbedding → List ScoredEmbedding
  | [] => []
  | x :: xs => insertBySim x (sortBySim xs)

/-- `searchVectors` from the CLI sources, with the opaque Text Embedder
boundary cut at its output: the function receives the already-embedded query
vector.  Scores every indexed item, sorts descending by similarity and
returns the first `topK` (default 3) results. -/
def searchVectors (indexedData : List EmbeddingItem) (queryVector : List ℚ)
    (topK : Nat := 3) : List ScoredEmbedding :=
  let results := indexedData.map (fun item =>
    { name := item.name, vector := item.vector,
      similarity := dotMin queryVector item.vector : ScoredEmbedding })
  (sortBySim results).take topK

/-- The value eventually held by the memoized `initEmbeddings` promise, as a
function of the outcome of `fetch(...).then(res => res.json())`: a successful
fetch-and-parse yields the index, and the `.catch(() => [])` handler turns
any failure (network error or malformed JSON) into the empty index. -/
def initEmbeddings (fetchResult : Except String (List EmbeddingItem)) :
    List EmbeddingItem :=
  match fetchResult with
  | Except.ok idx => idx
  | Except.error _ => []

/-- State of the memoization cell `let initPromise = null` across a process:
promises are identified by allocation order, `cell` holds the memoized
promise id once assigned, `fetchCount` counts outbound `fetch` calls and
`nextId` is the next fresh promise id. -/
structure EmbState where
  cell : Option Nat
  fetchCount : Nat
  nextId : Nat
deriving DecidableEq, Repr

/-- One call of `initEmbeddings()`: the synchronous body runs to completion
atomically (JavaScript's single-threaded event loop), so a call either
returns the already-memoized promise unchanged or, when the cell is still
`null`, issues the single `fetch` and stores the fresh promise.  Returns the
id of the promise handed to the caller together with the new state. -/
def callInitEmbeddings (s : EmbState) : Nat × EmbState :=
  match s.cell with
  | some p => (p, s)
  | none =>
    (s.nextId, { cell := some s.nextId, fetchCount := s.fetchCount + 1, nextId := s.nextId + 1 })

/-- A sequence of `n` calls of `initEmbeddings()` (in any interleaving of
callers — each synchronous body is atomic), collecting the returned promise
ids. -/
def runInitCalls : Nat → EmbState → List Nat × EmbState
  | 0, s => ([], s)
  | n + 1, s =>
    let rs := callInitEmbeddings s
    let rest := runInitCalls n rs.2
    (rs.1 :: rest.1, rest.2)

/-- The initial state of the process: no memoized promise, no fetches. -/
def embState0 : EmbState := { cell := none, fetchCount := 0, nextId := 0 }

/-- Reference definition of the comparator, written from the (amended) claim:
when only `next` is `Latest` the result is `1`, when only `current` is
`Latest` it is `-1`, when both are it is `0`; otherwise the modifier-guarded
cascade of component differences. -/
def compareVersionsRef (current next : Version) : Int :=
  match current, next with
  | Version.latest, Version.latest => 0
  | Version.v _ _ _ _, Version.latest => 1
  | Version.latest, Version.v _ _ _ _ => -1
  | Version.v m1 a1 b1 c1, Version.v _ a2 b2 c2 =>
    if (a2 : Int) - (a1 : Int) ≠ 0 ∨ m1 = Modifier.major then (a2 : Int) - (a1 : Int)
    else if (b2 : Int) - (b1 : Int) ≠ 0 ∨ m1 = Modifier.minor then (b2 : Int) - (b1 : Int)
    else (c2 : Int) - (c1 : Int)

/-- Insertion step of sorting index-tagged scored items by the lexicographic
key (similarity descending, then original index ascending).  Used to express
what a stable descending sort produces. -/
def lexInsert (x : Nat × ScoredEmbedding) :
    List (Nat × ScoredEmbedding) → List (Nat × ScoredEmbedding)
  | [] => [x]
  | y :: ys =>
    if y.2.similarity < x.2.similarity ∨ (x.2.similarity = y.2.similarity ∧ x.1 ≤ y.1)
    then x :: y :: ys
    else y :: lexInsert x ys

/-- Sort of index-tagged scored items by (similarity descending, original
index ascending), the order the claim describes. -/
def lexSortIndexed : List (Nat × ScoredEmbedding) → List (Nat × ScoredEmbedding)
  | [] => []
  | x :: xs => lexInsert x (lexSortIndexed xs)


lemma splitDep_fst_of_head_at (curr : String) (h : curr.data.head? = some '@') :
    (splitDep curr).1 = "" := by
  rcases hd : curr.data with _ | ⟨c, t⟩
  · simp [hd] at h
  · rw [hd] at h
    simp only [List.head?_cons, Option.some_inj] at h
    subst h
    simp [splitDep, splitChar, hd]

lemma runInitCalls_memoized (m : Nat) (s : EmbState) (p : Nat) (h : s.cell = some p) :
    runInitCalls m s = (List.replicate m p, s) := by
  induction m with
  | zero => rfl
  | succ n ih =>
    have hc : callInitEmbeddings s = (p, s) := by
      simp [callInitEmbeddings, h]
    simp [runInitCalls, hc, ih, List.replicate_succ]

/-- C2 counterexample: on an entry whose `dependencies` field is absent, the
optional chain makes `getConflictingDeps` return `undefined` (`none`), not
the empty list the claim asserts. -/
theorem c2_absent_field_counterexample :
    getConflictingDeps { name := "e", entry := "" }
        { dependencies := some [("react", "17.0.2")] } DepField.dependencies = none ∧
      getConflictingDeps { name := "e", entry := "" }
        { dependencies := some [("react", "17.0.2")] } DepField.dependencies ≠ some [] := by
  constructor
  · rfl
  · decide

/-- C2 (amended): when the entry's selected field is absent the detector
returns `none` (JavaScript `undefined`) rather than a list, and a dependency
token whose package name is found in neither manifest map contributes no
conflict entry. -/
theorem c2_absent_field_and_missing_dep :
    (∀ (config : RegistryEntry) (packageJson : PackageJson) (key : DepField),
        config.field key = none → getConflictingDeps config packageJson key = none) ∧
      ∀ (packageJson : PackageJson) (acc : List ConflictEntry) (curr : String),
        unionLookup packageJson (splitDep curr).1 = none →
          conflictStep packageJson acc curr = acc := by
  constructor
  · intro config packageJson key h
    simp [getConflictingDeps, h]
  · intro packageJson acc curr h
    simp [conflictStep, h]

/-- C2 witness: the amended theorem applied at concrete inputs. -/
theorem c2_witness :
    getConflictingDeps { name := "e", entry := "" }
        { dependencies := some [("react", "17.0.2")] } DepField.devDependencies = none ∧
      conflictStep { dependencies := some [("react", "17.0.2")] } [] "vue@^3.0.0" = [] := by
  constructor
  · exact c2_absent_field_and_missing_dep.1 { name := "e", entry := "" }
      { dependencies := some [("react", "17.0.2")] } DepField.devDependencies rfl
  · exact c2_absent_field_and_missing_dep.2
      { dependencies := some [("react", "17.0.2")] } [] "vue@^3.0.0" (by decide)

/-- C3 counterexample: the claim says the result is `-1` when only `next` is
`Latest`, but `compareVersions` returns `1` there (and symmetrically `-1`
when only `current` is `Latest`). -/
theorem c3_latest_sign_counterexample :
    compareVersions (Version.v Modifier.major 1 0 0) Version.latest = 1 ∧
      compareVersions Version.latest (Version.v Modifier.major 1 0 0) = -1 ∧
      compareVersions (Version.v Modifier.major 1 0 0) Version.latest ≠ -1 := by
  decide

/-- C3 (amended): `compareVersions` equals the reference definition with the
latest-branch signs as the code has them — `1` when only `next` is `Latest`,
`-1` when only `current` is `Latest`, `0` when both are; otherwise the
modifier-guarded cascade of component differences (in particular, equal
majors under a `major`-tolerant current specifier yield `0` regardless of
minor/patch). -/
theorem c3_compare_reference (current next : Version) :
    compareVersions current next = compareVersionsRef current next := by
  cases current <;> cases next <;> rfl

/-- C4: for a token whose required version text is not `"latest"` and whose
package is installed (with a conventional, non-empty version string), a
conflict is appended exactly when the raw leading dot-segments of the two
version strings differ — no modifier prefix is stripped; the spec's
react fixture is included. -/
theorem c4_major_string_conflict :
    (∀ (packageJson : PackageJson) (acc : List ConflictEntry)
        (curr name ver cur : String),
        splitDep curr = (name, ver) → ver ≠ "latest" →
          unionLookup packageJson name = some cur → cur ≠ "" →
            conflictStep packageJson acc curr =
              if firstDotSegment cur ≠ firstDotSegment ver
              then acc ++ [{ name := name, current := cur, next := ver }]
              else acc) ∧
      getConflictingDeps
          { name := "e", entry := "", dependencies := some ["react@^18.0.0"] }
          { dependencies := some [("react", "17.0.2")] } DepField.dependencies =
        some [{ name := "react", current := "17.0.2", next := "^18.0.0" }] := by
  constructor
  · intro packageJson acc curr name ver cur hsplit hver hlook hcur
    simp [conflictStep, hsplit, hlook, hver, hcur]
  · rfl

/-- C4 witness: the per-token theorem applied at the react fixture. -/
theorem c4_witness :
    conflictStep { dependencies := some [("react", "17.0.2")] } [] "react@^18.0.0" =
      [{ name := "react", current := "17.0.2", next := "^18.0.0" }] := by
  have h := c4_major_string_conflict.1 { dependencies := some [("react", "17.0.2")] }
    [] "react@^18.0.0" "react" "^18.0.0" "17.0.2" (by decide) (by decide) rfl (by decide)
  rw [h]
  decide

/-- C5: when the one-time fetch fails (network error or malformed JSON), the
`.catch` handler makes the index empty, and every search over the resulting
index returns the empty list (the functions are total, so nothing throws). -/
theorem c5_fetch_failure_empty (err : String) (queryVector : List ℚ) (topK : Nat) :
    initEmbeddings (Except.error err) = [] ∧
      searchVectors (initEmbeddings (Except.error err)) queryVector topK = [] :=
  ⟨rfl, by simp [searchVectors, initEmbeddings, sortBySim]⟩

/-- C8: a token requiring `"latest"` — explicitly or by the destructuring
default when no `@version` suffix is present — is unconditionally flagged for
an installed package (with a conventional, non-empty version string),
whatever version is installed. -/
theorem c8_latest_always_flagged :
    (∀ (packageJson : PackageJson) (acc : List ConflictEntry) (curr name cur : String),
        splitDep curr = (name, "latest") → unionLookup packageJson name = some cur →
          cur ≠ "" →
            conflictStep packageJson acc curr =
              acc ++ [{ name := name, current := cur, next := "latest" }]) ∧
      splitDep "react" = ("react", "latest") ∧
      splitDep "react@latest" = ("react", "latest") := by
  refine ⟨?_, by decide, by decide⟩
  intro packageJson acc curr name cur hsplit hlook hcur
  simp [conflictStep, hsplit, hlook, hcur]

/-- C8 witness: the theorem applied to a bare token against a manifest that
installs a quite different version. -/
theorem c8_witness :
    conflictStep { dependencies := some [("react", "17.0.2")] } [] "react" =
      [{ name := "react", current := "17.0.2", next := "latest" }] :=
  c8_latest_always_flagged.1 { dependencies := some [("react", "17.0.2")] }
    [] "react" "react" "17.0.2" (by decide) rfl (by decide)

/-- C9: the memoized initializer issues exactly one fetch over any sequence
of calls — the first call stores the fresh promise (id `0`) and every later
call, including calls made while that fetch is pending, returns the same
memoized promise without fetching. -/
theorem c9_single_fetch (n : Nat) :
    (runInitCalls (n + 1) embState0).2.fetchCount = 1 ∧
      (runInitCalls (n + 1) embState0).1 = List.replicate (n + 1) 0 := by
  have hc : callInitEmbeddings embState0 =
      (0, { cell := some 0, fetchCount := 1, nextId := 1 }) := rfl
  have hm := runInitCalls_memoized n
    { cell := some 0, fetchCount := 1, nextId := 1 } 0 rfl
  constructor
  · simp [runInitCalls, hc, hm]
  · simp [runInitCalls, hc, hm, List.replicate_succ]

/-- C10: a scoped token (leading `'@'`) is split at the first `'@'`, so the
extracted name is the empty string and the extracted version text is the
scope-and-name segment; against a manifest with no empty-string key such a
token is never looked up under its real name and yields no conflict. -/
theorem c10_scoped_split :
    (∀ curr : String, curr.data.head? = some '@' → (splitDep curr).1 = "") ∧
      splitDep "@types/node@1.0.0" = ("", "types/node") ∧
      ∀ (packageJson : PackageJson) (acc : List ConflictEntry) (curr : String),
        curr.data.head? = some '@' → unionLookup packageJson "" = none →
          conflictStep packageJson acc curr = acc := by
  refine ⟨fun curr h => splitDep_fst_of_head_at curr h, by decide, ?_⟩
  intro packageJson acc curr h hlook
  have h1 := splitDep_fst_of_head_at curr h
  rw [conflictStep, h1, hlook]

/-- C10 witness: the theorem applied to the scoped fixture token. -/
theorem c10_witness :
    (splitDep "@types/node@1.0.0").1 = "" ∧
      conflictStep { dependencies := some [("react", "17.0.2")] } []
        "@types/node@1.0.0" = [] := by
  constructor
  · exact c10_scoped_split.1 "@types/node@1.0.0" rfl
  · exact c10_scoped_split.2.2 { dependencies := some [("react", "17.0.2")] } []
      "@types/node@1.0.0" rfl rfl

lemma mem_insertBySim {z x : ScoredEmbedding} {l : List ScoredEmbedding}
    (h : z ∈ insertBySim x l) : z = x ∨ z ∈ l := by
  induction l with
  | nil =>
    simp only [insertBySim, List.mem_singleton] at h
    exact Or.inl h
  | cons y ys ih =>
    simp only [insertBySim] at h
    split at h
    · rcases List.mem_cons.mp h with h1 | h1
      · exact Or.inl h1
      · exact Or.inr h1
    · rcases List.mem_cons.mp h with h1 | h1
      · exact Or.inr (List.mem_cons.mpr (Or.inl h1))
      · rcases ih h1 with h2 | h2
        · exact Or.inl h2
        · exact Or.inr (List.mem_cons.mpr (Or.inr h2))

lemma pairwise_insertBySim (x : ScoredEmbedding) (l : List ScoredEmbedding)
    (h : l.Pairwise (fun a b => b.similarity ≤ a.similarity)) :
    (insertBySim x l).Pairwise (fun a b => b.similarity ≤ a.similarity) := by
  induction l with
  | nil => simp [insertBySim]
  | cons y ys ih =>
    rw [List.pairwise_cons] at h
    obtain ⟨hy, hys⟩ := h
    simp only [insertBySim]
    by_cases hc : y.similarity ≤ x.similarity
    · rw [if_pos hc]
      refine List.Pairwise.cons ?_ (List.Pairwise.cons hy hys)
      intro z hz
      rcases List.mem_cons.mp hz with h1 | h1
      · exact h1 ▸ hc
      · exact le_trans (hy z h1) hc
    · rw [if_neg hc]
      refine List.Pairwise.cons ?_ (ih hys)
      intro z hz
      rcases mem_insertBySim hz with h1 | h1
      · exact h1 ▸ (lt_of_not_le hc).le
      · exact hy z h1

lemma pairwise_sortBySim (l : List ScoredEmbedding) :
    (sortBySim l).Pairwise (fun a b => b.similarity ≤ a.similarity) := by
  induction l with
  | nil => simp [sortBySim]
  | cons x xs ih => exact pairwise_insertBySim x (sortBySim xs) ih

lemma mem_lexInsert {z x : Nat × ScoredEmbedding} {l : List (Nat × ScoredEmbedding)}
    (h : z ∈ lexInsert x l) : z = x ∨ z ∈ l := by
  induction l with
  | nil =>
    simp only [lexInsert, List.mem_singleton] at h
    exact Or.inl h
  | cons y ys ih =>
    simp only [lexInsert] at h
    split at h
    · rcases List.mem_cons.mp h with h1 | h1
      · exact Or.inl h1
      · exact Or.inr h1
    · rcases List.mem_cons.mp h with h1 | h1
      · exact Or.inr (List.mem_cons.mpr (Or.inl h1))
      · rcases ih h1 with h2 | h2
        · exact Or.inl h2
        · exact Or.inr (List.mem_cons.mpr (Or.inr h2))

lemma mem_lexSortIndexed {z : Nat × ScoredEmbedding} {l : List (Nat × ScoredEmbedding)}
    (h : z ∈ lexSortIndexed l) : z ∈ l := by
  induction l generalizing z with
  | nil => simp [lexSortIndexed] at h
  | cons x xs ih =>
    simp only [lexSortIndexed] at h
    rcases mem_lexInsert h with h1 | h1
    · exact List.mem_cons.mpr (Or.inl h1)
    · exact List.mem_cons.mpr (Or.inr (ih h1))

lemma map_snd_lexInsert (n : Nat) (x : ScoredEmbedding)
    (m : List (Nat × ScoredEmbedding)) (h : ∀ p ∈ m, n < p.1) :
    (lexInsert (n, x) m).map Prod.snd = insertBySim x (m.map Prod.snd) := by
  induction m with
  | nil => rfl
  | cons z zs ih =>
    have hz : n < z.1 := h z (List.mem_cons_self z zs)
    simp only [lexInsert, List.map_cons, insertBySim]
    by_cases hc : z.2.similarity ≤ x.similarity
    · have hcond : z.2.similarity < x.similarity ∨
          (x.similarity = z.2.similarity ∧ n ≤ z.1) := by
        rcases lt_or_eq_of_le hc with h1 | h1
        · exact Or.inl h1
        · exact Or.inr ⟨h1.symm, hz.le⟩
      rw [if_pos hcond, if_pos hc]
      simp
    · have hcond : ¬(z.2.similarity < x.similarity ∨
          (x.similarity = z.2.similarity ∧ n ≤ z.1)) := by
        intro hor
        rcases hor with h1 | ⟨h1, _⟩
        · exact hc h1.le
        · exact hc (le_of_eq h1.symm)
      rw [if_neg hcond, if_neg hc]
      rw [List.map_cons, ih (fun p hp => h p (List.mem_cons_of_mem z hp))]

lemma map_snd_lexSort_enumFrom (l : List ScoredEmbedding) (n : Nat) :
    (lexSortIndexed (List.enumFrom n l)).map Prod.snd = sortBySim l := by
  induction l generalizing n with
  | nil => rfl
  | cons x xs ih =>
    rw [List.enumFrom_cons]
    simp only [lexSortIndexed, sortBySim]
    have hidx : ∀ p ∈ lexSortIndexed (List.enumFrom (n + 1) xs), n < p.1 := by
      intro p hp
      obtain ⟨i, a⟩ := p
      exact Nat.lt_of_lt_of_le (Nat.lt_succ_self n)
        (List.mem_enumFrom (mem_lexSortIndexed hp)).1
    rw [map_snd_lexInsert n x _ hidx, ih (n + 1)]

/-- C6: `searchVectors` scores each item by the dot product of the query and
item vectors over their overlapping prefix, and returns the items in the
order obtained by tagging them with their original indices and sorting by
(similarity descending, index ascending) — descending similarity with ties
in original index order — truncated to the first `topK` entries, `topK`
defaulting to 3.  The full sorted list is pairwise descending in
similarity. -/
theorem c6_search_dot_sort_topk (indexedData : List EmbeddingItem)
    (queryVector : List ℚ) (topK : Nat) :
    searchVectors indexedData queryVector topK =
        ((lexSortIndexed (List.enumFrom 0 (indexedData.map (fun item =>
            { name := item.name, vector := item.vector,
              similarity := dotMin queryVector item.vector : ScoredEmbedding })))).map
          Prod.snd).take topK ∧
      (sortBySim (indexedData.map (fun item =>
          { name := item.name, vector := item.vector,
            similarity := dotMin queryVector item.vector : ScoredEmbedding }))).Pairwise
        (fun a b => b.similarity ≤ a.similarity) ∧
      searchVectors indexedData queryVector = searchVectors indexedData queryVector 3 := by
  refine ⟨?_, pairwise_sortBySim _, rfl⟩
  rw [map_snd_lexSort_enumFrom]
  rfl

lemma toString_data_of_le_nine (a : Nat) (h : a ≤ 9) :
    (toString a).data = [Nat.digitChar a] := by
  interval_cases a <;> rfl

lemma isDig_digitChar (a : Nat) (h : a ≤ 9) : isDig (Nat.digitChar a) = true := by
  interval_cases a <;> rfl

lemma digToNat_digitChar (a : Nat) (h : a ≤ 9) : digToNat (Nat.digitChar a) = a := by
  interval_cases a <;> rfl

/-- C1 counterexample: the regex `(\d)+` capture groups retain only the last
digit of each run, so the canonical form of a specifier with the multi-digit
major `10` parses back with major `0`. -/
theorem c1_roundtrip_counterexample :
    stringifyVersion (Version.v Modifier.major 10 2 3) = "10.2.3" ∧
      parseVersion "10.2.3" = some (Version.v Modifier.major 0 2 3) ∧
      parseVersion (stringifyVersion (Version.v Modifier.major 10 2 3)) ≠
        some (Version.v Modifier.major 10 2 3) := by
  decide

/-- C1 (amended): parsing the canonical string form round-trips every valid
specifier whose major, minor and patch components are single-digit (at most
9); for a component of two or more digits the single-character capture
groups keep only its last digit, so those components are not recovered. -/
theorem c1_roundtrip_single_digit (m : Modifier) (a b c : Nat)
    (ha : a ≤ 9) (hb : b ≤ 9) (hc : c ≤ 9) :
    parseVersion (stringifyVersion (Version.v m a b c)) = some (Version.v m a b c) := by
  have hda := isDig_digitChar a ha
  have hdb := isDig_digitChar b hb
  have hdc := isDig_digitChar c hc
  have hva := digToNat_digitChar a ha
  have hvb := digToNat_digitChar b hb
  have hvc := digToNat_digitChar c hc
  have hdot : isDig '.' = false := rfl
  have hdotstr : ("." : String).data = ['.'] := rfl
  have hdata : (stringifyVersion (Version.v m a b c)).data =
      (prefixOfModifier m).data ++
        [Nat.digitChar a, '.', Nat.digitChar b, '.', Nat.digitChar c] := by
    simp [stringifyVersion, String.data_append, hdotstr,
      toString_data_of_le_nine a ha, toString_data_of_le_nine b hb,
      toString_data_of_le_nine c hc]
  cases m
  case patch =>
    have hd2 : (stringifyVersion (Version.v Modifier.patch a b c)).data =
        '~' :: Nat.digitChar a :: '.' :: Nat.digitChar b :: '.' ::
          Nat.digitChar c :: [] := by
      rw [hdata]; rfl
    have hne : stringifyVersion (Version.v Modifier.patch a b c) ≠ "latest" := by
      intro heq
      have hq := congrArg String.data heq
      rw [hd2] at hq
      injection hq with h1 _
      exact absurd h1 (by decide)
    have htilde : isDig '~' = false := rfl
    have ht : tryFrom [] ('~' :: Nat.digitChar a :: '.' :: Nat.digitChar b :: '.' ::
        Nat.digitChar c :: []) =
        some (['~'], Nat.digitChar a, Nat.digitChar b, Nat.digitChar c) := by
      simp [tryFrom, attemptAt, htilde, hdot, hda, hdb, hdc,
        List.takeWhile_cons, List.dropWhile_cons]
    rw [parseVersion, if_neg hne, hd2, ht]
    have hm : modifierOfPrefixChars ['~'] = some Modifier.patch := rfl
    show (modifierOfPrefixChars ['~']).map (fun m => Version.v m
      (digToNat (Nat.digitChar a)) (digToNat (Nat.digitChar b))
      (digToNat (Nat.digitChar c))) = _
    rw [hm]
    show some (Version.v Modifier.patch (digToNat (Nat.digitChar a))
      (digToNat (Nat.digitChar b)) (digToNat (Nat.digitChar c))) = _
    rw [hva, hvb, hvc]
  case minor =>
    have hd2 : (stringifyVersion (Version.v Modifier.minor a b c)).data =
        '^' :: Nat.digitChar a :: '.' :: Nat.digitChar b :: '.' ::
          Nat.digitChar c :: [] := by
      rw [hdata]; rfl
    have hne : stringifyVersion (Version.v Modifier.minor a b c) ≠ "latest" := by
      intro heq
      have hq := congrArg String.data heq
      rw [hd2] at hq
      injection hq with h1 _
      exact absurd h1 (by decide)
    have hcaret : isDig '^' = false := rfl
    have ht : tryFrom [] ('^' :: Nat.digitChar a :: '.' :: Nat.digitChar b :: '.' ::
        Nat.digitChar c :: []) =
        some (['^'], Nat.digitChar a, Nat.digitChar b, Nat.digitChar c) := by
      simp [tryFrom, attemptAt, hcaret, hdot, hda, hdb, hdc,
        List.takeWhile_cons, List.dropWhile_cons]
    rw [parseVersion, if_neg hne, hd2, ht]
    have hm : modifierOfPrefixChars ['^'] = some Modifier.minor := rfl
    show (modifierOfPrefixChars ['^']).map (fun m => Version.v m
      (digToNat (Nat.digitChar a)) (digToNat (Nat.digitChar b))
      (digToNat (Nat.digitChar c))) = _
    rw [hm]
    show some (Version.v Modifier.minor (digToNat (Nat.digitChar a))
      (digToNat (Nat.digitChar b)) (digToNat (Nat.digitChar c))) = _
    rw [hva, hvb, hvc]
  case major =>
    have hd2 : (stringifyVersion (Version.v Modifier.major a b c)).data =
        Nat.digitChar a :: '.' :: Nat.digitChar b :: '.' ::
          Nat.digitChar c :: [] := by
      rw [hdata]; rfl
    have hne : stringifyVersion (Version.v Modifier.major a b c) ≠ "latest" := by
      intro heq
      have hq := congrArg String.data heq
      rw [hd2] at hq
      have hlen := congrArg List.length hq
      simp at hlen
    have ht : tryFrom [] (Nat.digitChar a :: '.' :: Nat.digitChar b :: '.' ::
        Nat.digitChar c :: []) =
        some ([], Nat.digitChar a, Nat.digitChar b, Nat.digitChar c) := by
      simp [tryFrom, attemptAt, hdot, hda, hdb, hdc,
        List.takeWhile_cons, List.dropWhile_cons]
    rw [parseVersion, if_neg hne, hd2, ht]
    have hm : modifierOfPrefixChars [] = some Modifier.major := rfl
    show (modifierOfPrefixChars []).map (fun m => Version.v m
      (digToNat (Nat.digitChar a)) (digToNat (Nat.digitChar b))
      (digToNat (Nat.digitChar c))) = _
    rw [hm]
    show some (Version.v Modifier.major (digToNat (Nat.digitChar a))
      (digToNat (Nat.digitChar b)) (digToNat (Nat.digitChar c))) = _
    rw [hva, hvb, hvc]

/-- C1 witness: the amended round-trip theorem applied at a concrete
single-digit specifier. -/
theorem c1_roundtrip_witness :
    parseVersion (stringifyVersion (Version.v Modifier.minor 1 2 3)) =
      some (Version.v Modifier.minor 1 2 3) :=
  c1_roundtrip_single_digit Modifier.minor 1 2 3 (by decide) (by decide) (by decide)
